import Mathlib

/-!
Verification development for the `route53_validator` repository.

The two source files `route53_check.py` and `route53_validator.py` share the
helpers `normalize` and `resolve_to_external_ip`; `route53_check.py` adds the
CNAME chain walker `resolve_cname_chain` and a classification loop in `main`,
while `route53_validator.py` has a strict-dedup loop in `main` that resolves
a record's source and (for CNAMEs) its target directly.

The embedding below models:
  * Python strings as Lean `String` (list of characters);
  * the live resolver `resolve_to_external_ip` as an abstract oracle
    `String → Option (List String)` (`none` models the `except` branch that
    returns Python `None`; `some l` a successful answer list);
  * Python truthiness of the answer (`if ip_list:`) as `truthy`;
  * records as `{ name, rtype, values }` (a `ResourceRecordSets` entry with
    its `Name`, `Type` and the list of `ResourceRecords` values);
  * a raised `IndexError` (indexing `ResourceRecords[0]` of an empty list)
    as `Except.error`;
  * the `while` loop of `resolve_cname_chain` as a fuel-indexed recursion
    `chainLoopFuel` (`none` = fuel exhausted); the lemmas below show that
    `|distinct normalized names| + 1` fuel always suffices, so
    `resolve_cname_chain` defined at that fuel is the loop's semantics.
-/

namespace Route53

/-- Python `s.rstrip('.')`: remove every trailing `'.'` character. -/
def rstripDots (s : String) : String :=
  ⟨(s.data.reverse.dropWhile (fun c => c == '.')).reverse⟩

/-- Python `s.lower()`, modelled character by character. -/
def lowerStr (s : String) : String :=
  ⟨s.data.map Char.toLower⟩

/-- `normalize` from both source files: `name.rstrip('.').lower()`. -/
def normalize (name : String) : String :=
  lowerStr (rstripDots name)

/-- Modelled from the spec: "a string key derived from a DNS name by
stripping exactly one trailing dot and lower-casing".  Used only to compare
the spec's wording with the source's `normalize`. -/
def spec_normalize (name : String) : String :=
  lowerStr (if name.data.getLast? = some '.' then ⟨name.data.dropLast⟩ else name)

/-- A zone record: `Name`, `Type`, and the list of `ResourceRecords` values. -/
structure Record where
  name : String
  rtype : String
  values : List String
deriving DecidableEq

/-- The external resolution oracle (`resolve_to_external_ip`): `none` is the
exception branch returning Python `None`, `some l` a (sorted) answer list. -/
abbrev Oracle := String → Option (List String)

/-- Python truthiness of `ip_list` (`None` and `[]` are falsy). -/
def truthy : Option (List String) → Bool
  | none => false
  | some l => !l.isEmpty

/-- `next((r for r in records if normalize(r['Name']) == current_name), None)`. -/
def findRecord (records : List Record) (current : String) : Option Record :=
  records.find? (fun r => normalize r.name == current)

/-- Message for a Python `IndexError` raised by `xs[0]` on an empty list. -/
def indexErrMsg : String := "IndexError: list index out of range"

/-- `r['ResourceRecords'][0]['Value']`: raises `IndexError` when empty. -/
def firstValue (r : Record) : Except String String :=
  match r.values with
  | [] => Except.error indexErrMsg
  | v :: _ => Except.ok v

/-- The distinct normalized source names occurring in the record list:
the key set of the conceptual record index. -/
def indexNames (records : List Record) : List String :=
  (records.map (fun r => normalize r.name)).dedup

/-- Outcome of `resolve_cname_chain`: `(current_name, status, ip_list)`. -/
abbrev ChainOutcome := String × String × Option (List String)

/-- The `while` loop of `resolve_cname_chain`, indexed by fuel.
`none` means the fuel ran out before the loop finished; `some (.error e)`
models a raised `IndexError` (CNAME record with an empty values list). -/
def chainLoopFuel (records : List Record) (oracle : Oracle) :
    Nat → List String → String → Option (Except String ChainOutcome)
  | 0, _, _ => none
  | fuel + 1, tested, current =>
    if current ∈ tested then
      some (Except.ok (current, "CNAME loop detected", none))
    else
      match findRecord records current with
      | none =>
        let ips := oracle current
        some (Except.ok (current,
          if truthy ips then "Resolved externally" else "Does not have an IP match", ips))
      | some r =>
        if r.rtype = "A" then
          let ips := oracle current
          some (Except.ok (current,
            if truthy ips then "Externally resolvable A record"
            else "A record does not resolve externally", ips))
        else if r.rtype = "CNAME" then
          match firstValue r with
          | Except.error e => some (Except.error e)
          | Except.ok v =>
            chainLoopFuel records oracle fuel (current :: tested) (normalize v)
        else
          some (Except.ok (current, "Unsupported record type: " ++ r.rtype, none))

/-- `resolve_cname_chain(records, domain_name, resolver_address)`: the loop run
with `|index| + 1` fuel, which the termination lemmas below prove sufficient
(the default is never reached). -/
def resolve_cname_chain (records : List Record) (domain_name : String)
    (oracle : Oracle) : Except String ChainOutcome :=
  (chainLoopFuel records oracle ((indexNames records).length + 1) [] (normalize domain_name)).getD
    (Except.error "out of fuel")

/-- One CNAME hop through the record list: defined exactly when `n` is the
normalized name of a CNAME record (with a first value) in the list. -/
def cnameStep (records : List Record) (n : String) : Option String :=
  match findRecord records n with
  | some r =>
    if r.rtype = "CNAME" then (firstValue r).toOption.map normalize else none
  | none => none

/-- `k`-fold iteration of `cnameStep`. -/
def stepN (records : List Record) : Nat → String → Option String
  | 0, n => some n
  | k + 1, n => (cnameStep records n).bind (stepN records k)

/-- `n` lies on a CNAME cycle of the record list: some positive number of
CNAME hops leads back to `n`. -/
def onCycle (records : List Record) (n : String) : Prop :=
  ∃ k, 0 < k ∧ stepN records k n = some n

/-! ### The classification loops of the two `main` functions -/

/-- One per-record report dictionary `{source, final_domain, status, all_ips}`. -/
structure RRResult where
  source : String
  final_domain : String
  status : String
  all_ips : String
deriving DecidableEq

/-- The three result lists built by `main`: `all_results`, `resolved`,
`unresolved`. -/
structure RunOutput where
  all : List RRResult
  resolved : List RRResult
  unresolved : List RRResult
deriving DecidableEq

/-- An ignore pattern, abstracted to its `pat.search` test on a string
(`true` iff the regex matches somewhere in the string). -/
abbrev IgnorePat := String → Bool

/-- `any(pat.search(source) or (target and pat.search(target)) for pat in
ignore_patterns)`.  Note the Python truthiness test on `target`: a `None`
target and an empty-string target both short-circuit to false. -/
def ignoredCheck (pats : List IgnorePat) (source : String) (target : Option String) : Bool :=
  pats.any (fun pat =>
    pat source ||
      (match target with
       | some t => !(t == "") && pat t
       | none => false))

/-- The target the code computes for a record when it needs one:
`normalize(record['ResourceRecords'][0]['Value'])` for a CNAME (when the
values list is nonempty), absent otherwise. -/
def recordTarget (r : Record) : Option String :=
  if r.rtype = "CNAME" then r.values.head?.map normalize else none

/-- Build one result dictionary: `all_ips` is the comma join of the answer
when truthy, and the sentinel string otherwise. -/
def mkResult (source finalDomain status : String) (ips : Option (List String)) : RRResult :=
  ⟨source, finalDomain, status,
    if truthy ips then String.intercalate ", " (ips.getD []) else "No DNS resolution"⟩

/-- Prepend a result to the output triple: always onto `all`, and onto
`resolved` or `unresolved` according to the truthiness flag of `ip_list`. -/
def pushResult (res : RRResult) (flag : Bool) : Except String RunOutput → Except String RunOutput
  | Except.error e => Except.error e
  | Except.ok out =>
    Except.ok ⟨res :: out.all,
      if flag then res :: out.resolved else out.resolved,
      if flag then out.unresolved else res :: out.unresolved⟩

/-- `args.limit is not None and processed_count >= args.limit`. -/
def limitHit (limit : Option Nat) (count : Nat) : Bool :=
  match limit with
  | none => false
  | some n => count ≥ n

/-- The record loop of `main` in `route53_check.py` (lines 114-160).
`index` is the full record list handed to `resolve_cname_chain`, `count` is
`processed_count`.  A CNAME record with an empty values list raises
`IndexError` at the target computation (line 119). -/
def checkLoop (index : List Record) (pats : List IgnorePat) (limit : Option Nat)
    (oracle : Oracle) : Nat → List Record → Except String RunOutput
  | _, [] => Except.ok ⟨[], [], []⟩
  | count, r :: rs =>
    if limitHit limit count then Except.ok ⟨[], [], []⟩
    else
      let source := normalize r.name
      if r.rtype = "CNAME" then
        match r.values with
        | [] => Except.error indexErrMsg
        | v :: _ =>
          let target := normalize v
          if ignoredCheck pats source (some target) then
            checkLoop index pats limit oracle count rs
          else
            match resolve_cname_chain index target oracle with
            | Except.error e => Except.error e
            | Except.ok (finalDomain, status, ips) =>
              pushResult (mkResult source finalDomain status ips) (truthy ips)
                (checkLoop index pats limit oracle (count + 1) rs)
      else
        if ignoredCheck pats source none then
          checkLoop index pats limit oracle count rs
        else if r.rtype = "A" then
          let ips := oracle source
          let status :=
            if truthy ips then "Externally resolvable A record"
            else "A record does not resolve externally"
          pushResult (mkResult source source status ips) (truthy ips)
            (checkLoop index pats limit oracle (count + 1) rs)
        else
          checkLoop index pats limit oracle count rs

/-- `main` of `route53_check.py`, from the fetched record list on. -/
def runCheckMain (records : List Record) (pats : List IgnorePat)
    (limit : Option Nat) (oracle : Oracle) : Except String RunOutput :=
  checkLoop records pats limit oracle 0 records

/-- A record reaches the classification step of `route53_check.py`'s loop
(is counted and produces a result) iff it is not ignored and its type is
`A` or `CNAME`. -/
def eligibleCheck (pats : List IgnorePat) (r : Record) : Bool :=
  !ignoredCheck pats (normalize r.name) (recordTarget r) &&
    (decide (r.rtype = "A") || decide (r.rtype = "CNAME"))

/-- Well-formedness: every CNAME record carries at least one value, so no
`IndexError` can be raised. -/
def wfRecords (records : List Record) : Prop :=
  ∀ r ∈ records, r.rtype = "CNAME" → r.values ≠ []

instance (records : List Record) : Decidable (wfRecords records) := by
  unfold wfRecords; infer_instance

/-- Per-record body of `main` in `route53_validator.py` (lines 104-150),
for a record that survived the type, dedup and ignore filters: resolve the
source, for a CNAME also resolve the target (affecting only `final_domain`
and, when the source resolved, a status fragment), and report the source's
answer.  The returned flag is the truthiness of `ip_list`. -/
def processValidator (oracle : Oracle) (r : Record) : Except String (RRResult × Bool) :=
  let source := normalize r.name
  let ipSrc := oracle source
  let srcPart := if truthy ipSrc then "✅ Source resolves" else "❌ Source does not resolve"
  if r.rtype = "CNAME" then
    match r.values with
    | [] => Except.error indexErrMsg
    | v :: _ =>
      let target := normalize v
      let ipTgt := oracle target
      let status :=
        if truthy ipSrc then
          srcPart ++ (if truthy ipTgt then "; ✅ Target resolves" else "; ❌ Target does not resolve")
        else srcPart
      Except.ok (mkResult source target status ipSrc, truthy ipSrc)
  else
    Except.ok (mkResult source source srcPart ipSrc, truthy ipSrc)

/-- The record loop of `main` in `route53_validator.py` (lines 85-150):
limit check, type filter, dedup on `seen_sources` (the source is recorded
as seen *before* the ignore filter runs), ignore filter, then the
per-record body. -/
def validatorLoop (pats : List IgnorePat) (limit : Option Nat) (oracle : Oracle) :
    Nat → List String → List Record → Except String RunOutput
  | _, _, [] => Except.ok ⟨[], [], []⟩
  | count, seen, r :: rs =>
    if limitHit limit count then Except.ok ⟨[], [], []⟩
    else if ¬(r.rtype = "A" ∨ r.rtype = "CNAME") then
      validatorLoop pats limit oracle count seen rs
    else
      let source := normalize r.name
      let target := r.values.head?.map normalize
      if source ∈ seen then
        validatorLoop pats limit oracle count seen rs
      else
        let seen' := source :: seen
        if ignoredCheck pats source target then
          validatorLoop pats limit oracle count seen' rs
        else
          match processValidator oracle r with
          | Except.error e => Except.error e
          | Except.ok (res, flag) =>
            pushResult res flag (validatorLoop pats limit oracle (count + 1) seen' rs)

/-- `main` of `route53_validator.py`, from the fetched record list on. -/
def runValidatorMain (records : List Record) (pats : List IgnorePat)
    (limit : Option Nat) (oracle : Oracle) : Except String RunOutput :=
  validatorLoop pats limit oracle 0 [] records

/-- Drop, among `A`/`CNAME` records, every record whose normalized name is
in `seen` or already occurred (as an `A`/`CNAME` record) earlier in the
list: what the strict-dedup filter of `route53_validator.py` skips. -/
def dedupSeen (seen : List String) : List Record → List Record
  | [] => []
  | r :: rs =>
    if r.rtype = "A" ∨ r.rtype = "CNAME" then
      if normalize r.name ∈ seen then dedupSeen seen rs
      else r :: dedupSeen (normalize r.name :: seen) rs
    else r :: dedupSeen seen rs

/-- Two oracles agree up to collapsing empty answers into failures: their
answers are equally truthy everywhere, and identical wherever truthy.
Equivalent oracles differ only by exchanging `none` and `some []`. -/
def oracleEquiv (o1 o2 : Oracle) : Prop :=
  ∀ n, truthy (o1 n) = truthy (o2 n) ∧ (truthy (o1 n) = true → o1 n = o2 n)

/-! ### Concrete fixtures used by witnesses and counterexamples -/

/-- An oracle for which no name resolves. -/
def oracleNone : Oracle := fun _ => none

/-- An oracle answering every name with an empty list. -/
def oracleEmpty : Oracle := fun _ => some []

/-- Spec scenario 2: `x → y → x`. -/
def cycleRecords : List Record :=
  [⟨"x", "CNAME", ["y"]⟩, ⟨"y", "CNAME", ["x"]⟩]

/-- Spec scenario 1: a CNAME into a local A record. -/
def scenario1Records : List Record :=
  [⟨"a.example.com", "CNAME", ["b.example.com"]⟩, ⟨"b.example.com", "A", ["9.9.9.9"]⟩]

/-- Spec scenario 1 oracle: only `b.example.com` resolves. -/
def scenario1Oracle : Oracle :=
  fun n => if n == "b.example.com" then some ["1.2.3.4"] else none

/-- A malformed record: a CNAME whose values list is empty. -/
def badCnameRecord : Record := ⟨"bad.example.com", "CNAME", []⟩

/-- A mixed list with a malformed CNAME between two healthy A records. -/
def mixedBadRecords : List Record :=
  [⟨"ok.example.com", "A", ["1.1.1.1"]⟩, badCnameRecord, ⟨"ok2.example.com", "A", ["2.2.2.2"]⟩]

/-- A CNAME whose target `"."` normalizes to the empty string. -/
def dotCnameRecord : Record := ⟨"a.example.com", "CNAME", ["."]⟩

/-- A pattern matching exactly the empty string (such as the regex `^$`). -/
def emptyOnlyPat : IgnorePat := fun t => t == ""

/-- An A record whose name starts with `test-`. -/
def testARecord : Record := ⟨"test-a.example.com", "A", ["1.2.3.4"]⟩

/-- A healthy A record. -/
def plainARecord : Record := ⟨"web.example.com", "A", ["5.6.7.8"]⟩

/-- A pattern matching the ignored test name. -/
def testNamePat : IgnorePat := fun s => s == "test-a.example.com"

/-- A CNAME for `dup.example.com` whose target matches an ignore pattern. -/
def dupCnameRecord : Record := ⟨"dup.example.com", "CNAME", ["ignored-target.com"]⟩

/-- An A record with the same (normalized) name as `dupCnameRecord`. -/
def dupARecord : Record := ⟨"dup.example.com", "A", ["1.2.3.4"]⟩

/-- A pattern matching only the CNAME's target name. -/
def dupTargetPat : IgnorePat := fun s => s == "ignored-target.com"

/-- Spec scenario 6: two A records with the same name. -/
def dupPairRecords : List Record :=
  [⟨"dup.example.com", "A", ["1.2.3.4"]⟩, ⟨"dup.example.com", "A", ["5.6.7.8"]⟩]

/-- A CNAME record used to exercise the validator's per-record body. -/
def valCnameRecord : Record := ⟨"src.example.com", "CNAME", ["tgt.example.com"]⟩

/-! ### Termination of the chain loop -/

theorem contains_eq_mem (l : List String) (a : String) :
    l.contains a = decide (a ∈ l) := by
  simp [List.contains]

/-- A normalized name with a matching record is an index key. -/
theorem mem_indexNames_of_findRecord {records : List Record} {current : String}
    {r : Record} (h : findRecord records current = some r) :
    current ∈ indexNames records := by
  unfold findRecord at h
  have hmem : r ∈ records := List.mem_of_find?_eq_some h
  have hbeq := List.find?_some h
  have heq : normalize r.name = current := by simpa using hbeq
  unfold indexNames
  exact List.mem_dedup.mpr (heq ▸ List.mem_map_of_mem (fun r => normalize r.name) hmem)

/-- Fuel sufficiency: one unit of fuel beyond the number of untested index
keys always finishes the loop. -/
theorem chainLoopFuel_isSome (records : List Record) (oracle : Oracle) :
    ∀ fuel tested current,
      ((indexNames records).toFinset \ tested.toFinset).card < fuel →
      (chainLoopFuel records oracle fuel tested current).isSome = true := by
  intro fuel
  induction fuel with
  | zero => intro tested current h; exact absurd h (Nat.not_lt_zero _)
  | succ f ih =>
    intro tested current h
    rw [chainLoopFuel]
    by_cases hmem : current ∈ tested
    · simp [hmem]
    · rw [if_neg hmem]
      cases hf : findRecord records current with
      | none => simp
      | some r =>
        dsimp only
        by_cases ha : r.rtype = "A"
        · simp [ha]
        · rw [if_neg ha]
          by_cases hc : r.rtype = "CNAME"
          · rw [if_pos hc]
            cases hfv : firstValue r with
            | error e => simp
            | ok v =>
              apply ih
              have hkey : current ∈ (indexNames records).toFinset :=
                List.mem_toFinset.mpr (mem_indexNames_of_findRecord hf)
              have hnt : current ∉ tested.toFinset := List.mem_toFinset.not.mpr hmem
              have hin : current ∈ (indexNames records).toFinset \ tested.toFinset :=
                Finset.mem_sdiff.mpr ⟨hkey, hnt⟩
              have hrw : (indexNames records).toFinset \ (current :: tested).toFinset
                  = ((indexNames records).toFinset \ tested.toFinset).erase current := by
                rw [List.toFinset_cons, Finset.sdiff_insert]
              have hlt : ((indexNames records).toFinset \ (current :: tested).toFinset).card
                  < ((indexNames records).toFinset \ tested.toFinset).card := by
                rw [hrw]
                exact Finset.card_erase_lt_of_mem hin
              exact Nat.lt_of_lt_of_le hlt (Nat.lt_succ_iff.mp h)
          · simp [ha, hc]

/-- `resolve_cname_chain` is the chain loop run with `|index| + 1` fuel:
that much fuel never runs out. -/
theorem chainLoopFuel_eq_resolve (records : List Record) (oracle : Oracle) (d : String) :
    chainLoopFuel records oracle ((indexNames records).length + 1) [] (normalize d)
      = some (resolve_cname_chain records d oracle) := by
  have hle : ((indexNames records).toFinset \ ([] : List String).toFinset).card ≤
      (indexNames records).length := by
    calc ((indexNames records).toFinset \ ([] : List String).toFinset).card
        ≤ (indexNames records).toFinset.card := Finset.card_le_card (Finset.sdiff_subset)
      _ ≤ (indexNames records).length := List.toFinset_card_le _
  have hs := chainLoopFuel_isSome records oracle ((indexNames records).length + 1)
    [] (normalize d) (Nat.lt_succ_of_le hle)
  unfold resolve_cname_chain
  cases hv : chainLoopFuel records oracle ((indexNames records).length + 1) [] (normalize d) with
  | none => rw [hv] at hs; exact absurd hs (by simp)
  | some v => rfl

/-! ### Cycles force the loop-detected outcome -/

theorem stepN_succ_right (records : List Record) :
    ∀ (k : Nat) (n : String),
      stepN records (k + 1) n = (stepN records k n).bind (cnameStep records) := by
  intro k
  induction k with
  | zero =>
    intro n
    cases h : cnameStep records n <;> simp [stepN, h]
  | succ j ih =>
    intro n
    cases h : cnameStep records n with
    | none => simp [stepN, h]
    | some m =>
      have h1 : stepN records (j + 1 + 1) n = stepN records (j + 1) m := by
        rw [stepN, h]; rfl
      have h2 : stepN records (j + 1) n = stepN records j m := by
        rw [stepN, h]; rfl
      rw [h1, h2]
      exact ih m

/-- Every successor of a name on a cycle is itself on a cycle, with the
same period. -/
theorem stepN_cycle_step (records : List Record) (n m : String) (k : Nat)
    (hk : stepN records k n = some n) (hm : cnameStep records n = some m) :
    stepN records k m = some m := by
  have h1 : stepN records (k + 1) n = stepN records k m := by
    simp [stepN, hm]
  have h2 : stepN records (k + 1) n = some m := by
    rw [stepN_succ_right, hk]
    simp [hm]
  rw [← h1, h2]

/-- Started anywhere on a CNAME cycle, the loop can only end by revisiting
a tested name: whenever it finishes, the outcome is "CNAME loop detected". -/
theorem chainLoopFuel_cycle (records : List Record) (oracle : Oracle) :
    ∀ fuel tested current, onCycle records current →
      ∀ v, chainLoopFuel records oracle fuel tested current = some v →
        ∃ n, v = Except.ok (n, "CNAME loop detected", none) := by
  intro fuel
  induction fuel with
  | zero => intro tested current _ v hv; exact absurd hv (by simp [chainLoopFuel])
  | succ f ih =>
    intro tested current hcyc v hv
    rw [chainLoopFuel] at hv
    by_cases hmem : current ∈ tested
    · rw [if_pos hmem] at hv
      exact ⟨current, (Option.some.injEq _ _).mp hv.symm⟩
    · rw [if_neg hmem] at hv
      obtain ⟨k, hkpos, hk⟩ := hcyc
      obtain ⟨j, rfl⟩ : ∃ j, k = j + 1 := ⟨k - 1, (Nat.succ_pred_eq_of_pos hkpos).symm⟩
      have hstep : ∃ m, cnameStep records current = some m := by
        cases hs : cnameStep records current with
        | none => rw [stepN, hs] at hk; exact absurd hk (by simp)
        | some m => exact ⟨m, rfl⟩
      obtain ⟨m, hm⟩ := hstep
      have hm' := hm
      unfold cnameStep at hm'
      cases hf : findRecord records current with
      | none => rw [hf] at hm'; exact absurd hm' (by simp)
      | some r =>
        rw [hf] at hm'
        dsimp only at hm'
        by_cases hcn : r.rtype = "CNAME"
        · rw [if_pos hcn] at hm'
          cases hfv : firstValue r with
          | error e => rw [hfv] at hm'; exact absurd hm' (by simp [Except.toOption])
          | ok v0 =>
            rw [hfv] at hm'
            simp only [Except.toOption, Option.map_some'] at hm'
            have hmeq : m = normalize v0 := (Option.some.injEq _ _).mp hm'.symm
            have hne : ¬ r.rtype = "A" := by rw [hcn]; intro hx; exact absurd hx (by decide)
            rw [hf] at hv
            dsimp only at hv
            rw [if_neg hne, if_pos hcn, hfv] at hv
            have hcyc' : onCycle records (normalize v0) := by
              refine ⟨j + 1, hkpos, ?_⟩
              have hnext := stepN_cycle_step records current m (j + 1) hk hm
              rw [hmeq] at hnext
              exact hnext
            exact ih (current :: tested) (normalize v0) hcyc' v hv
        · rw [if_neg hcn] at hm'; exact absurd hm' (by simp)

/-! ### Claims C1, C2, C3 -/

/-- C1: for every finite record list — cyclic record graphs of any length
included — `resolve_cname_chain` terminates: the `while` loop finishes
within `|index| + 1` iterations of fuel, where `|index|` is the number of
distinct normalized names in the record list, and when started at a name
lying on a CNAME cycle the outcome is "CNAME loop detected". -/
theorem chain_terminates_within_bound (records : List Record) (oracle : Oracle) (d : String) :
    chainLoopFuel records oracle ((indexNames records).length + 1) [] (normalize d)
        = some (resolve_cname_chain records d oracle)
    ∧ (onCycle records (normalize d) →
        ∃ n, resolve_cname_chain records d oracle
          = Except.ok (n, "CNAME loop detected", none)) := by
  refine ⟨chainLoopFuel_eq_resolve records oracle d, fun hcyc => ?_⟩
  exact chainLoopFuel_cycle records oracle _ [] (normalize d) hcyc _
    (chainLoopFuel_eq_resolve records oracle d)

/-- Witness for C1 at the two-element cycle `x → y → x`, whose smaller
conjunct's cycle hypothesis is discharged with period 2. -/
theorem chain_terminates_within_bound_witness :
    (chainLoopFuel cycleRecords oracleNone ((indexNames cycleRecords).length + 1) []
        (normalize "x") = some (resolve_cname_chain cycleRecords "x" oracleNone))
    ∧ (∃ n, resolve_cname_chain cycleRecords "x" oracleNone
        = Except.ok (n, "CNAME loop detected", none)) :=
  ⟨(chain_terminates_within_bound cycleRecords oracleNone "x").1,
   (chain_terminates_within_bound cycleRecords oracleNone "x").2 ⟨2, by decide, rfl⟩⟩

/-- C2: spec scenario 1 — a CNAME followed through the local index to a
local A record whose live resolution succeeds is classified
"Externally resolvable A record" with the oracle's addresses. -/
theorem chain_scenario_cname_to_a :
    resolve_cname_chain scenario1Records "a.example.com" scenario1Oracle
      = Except.ok ("b.example.com", "Externally resolvable A record", some ["1.2.3.4"]) := rfl

/-- C3: spec scenario 2 — resolving `x` in the cycle `x → y → x` stops with
"CNAME loop detected" at final name `x` (where the repeat is detected) and
no IP addresses. -/
theorem chain_scenario_two_cycle :
    resolve_cname_chain cycleRecords "x" oracleNone
      = Except.ok ("x", "CNAME loop detected", none) := rfl

/-! ### Claim C5: what `normalize` does to trailing dots -/

theorem rstripDots_data (s : String) :
    (rstripDots s).data = (s.data.reverse.dropWhile (fun c => c == '.')).reverse := rfl

theorem head?_dropWhile_not (p : Char → Bool) :
    ∀ (l : List Char) (c : Char), (l.dropWhile p).head? = some c → p c = false := by
  intro l
  induction l with
  | nil => intro c h; exact absurd h (by simp)
  | cons a l ih =>
    intro c h
    rw [List.dropWhile_cons] at h
    cases hpa : p a with
    | true => rw [if_pos hpa] at h; exact ih c h
    | false =>
      rw [if_neg (by simp [hpa])] at h
      rw [List.head?_cons, Option.some.injEq] at h
      rw [← h]
      exact hpa

/-- C5 counterexample: on a name ending in two dots, `normalize` (which
strips every trailing dot) disagrees with the spec's "exactly one trailing
dot" description, embodied by `spec_normalize`. -/
theorem normalize_two_dots_cex :
    normalize "a.example.com.." = "a.example.com"
    ∧ spec_normalize "a.example.com.." = "a.example.com."
    ∧ normalize "a.example.com.." ≠ spec_normalize "a.example.com.." :=
  ⟨rfl, rfl, by decide⟩

/-- C5 (amended): `normalize` removes the whole maximal run of trailing
dots — so a name ending in several dots loses all of them — and lower-cases
the remainder: the input splits as the stripped name followed by `k` dots,
the stripped name does not end in a dot, and `normalize` is its
character-wise lower-casing. -/
theorem normalize_strips_all_trailing_dots (s : String) :
    ∃ k, s.data = (rstripDots s).data ++ List.replicate k '.'
      ∧ (rstripDots s).data.getLast? ≠ some '.'
      ∧ normalize s = ⟨(rstripDots s).data.map Char.toLower⟩ := by
  refine ⟨(s.data.reverse.takeWhile (fun c => c == '.')).length, ?_, ?_, rfl⟩
  · have hsplit := List.takeWhile_append_dropWhile
      (p := fun c => c == '.') (l := s.data.reverse)
    have hrep : s.data.reverse.takeWhile (fun c => c == '.')
        = List.replicate (s.data.reverse.takeWhile (fun c => c == '.')).length '.' := by
      apply List.eq_replicate_of_mem
      intro b hb
      have hpb := List.mem_takeWhile_imp hb
      simpa using hpb
    calc s.data = s.data.reverse.reverse := (List.reverse_reverse _).symm
      _ = (s.data.reverse.takeWhile (fun c => c == '.') ++
            s.data.reverse.dropWhile (fun c => c == '.')).reverse := by rw [hsplit]
      _ = (s.data.reverse.dropWhile (fun c => c == '.')).reverse ++
            (s.data.reverse.takeWhile (fun c => c == '.')).reverse := by
          rw [List.reverse_append]
      _ = (rstripDots s).data ++
            List.replicate (s.data.reverse.takeWhile (fun c => c == '.')).length '.' := by
          rw [rstripDots_data, hrep, List.reverse_replicate]
          simp [List.length_replicate]
  · rw [rstripDots_data, List.getLast?_reverse]
    cases hh : (s.data.reverse.dropWhile (fun c => c == '.')).head? with
    | none => simp
    | some c =>
      have hpc := head?_dropWhile_not (fun c => c == '.') s.data.reverse c hh
      intro heq
      rw [Option.some.injEq] at heq
      subst heq
      simp at hpc

/-! ### Claim C4: malformed CNAME records crash both runs -/

/-- C4 (code bug): a CNAME record whose values list is empty makes both
`main` functions raise an uncaught `IndexError` (at the target computation),
instead of skipping or classifying the record as the spec requires. -/
theorem malformed_cname_crashes_both_runs :
    runCheckMain [badCnameRecord] [] none oracleNone = Except.error indexErrMsg
    ∧ runValidatorMain [badCnameRecord] [] none oracleNone = Except.error indexErrMsg :=
  ⟨rfl, rfl⟩

/-! ### Claim C10: the validator's CNAME handling is decided by the source -/

/-- C10: in `route53_validator.py`, a processed CNAME record's partition
flag (`resolved` vs `unresolved`) and exported `all_ips` field are exactly
the source name's resolution; the target's answer only chooses the status
fragment that is appended when (and only when) the source resolved, and the
target becomes `final_domain`.  Oracles agreeing on the source yield the
same `all_ips` and the same partition flag. -/
theorem validator_cname_source_decides (oracle : Oracle) (r : Record) (v : String)
    (rest : List String) (hc : r.rtype = "CNAME") (hv : r.values = v :: rest) :
    (processValidator oracle r
      = Except.ok
          (⟨normalize r.name, normalize v,
            (if truthy (oracle (normalize r.name)) then
              "✅ Source resolves" ++
                (if truthy (oracle (normalize v)) then "; ✅ Target resolves"
                 else "; ❌ Target does not resolve")
             else "❌ Source does not resolve"),
            (if truthy (oracle (normalize r.name)) then
              String.intercalate ", " ((oracle (normalize r.name)).getD [])
             else "No DNS resolution")⟩,
           truthy (oracle (normalize r.name))))
    ∧ ∀ oracle2 : Oracle, oracle2 (normalize r.name) = oracle (normalize r.name) →
        (processValidator oracle2 r).map (fun p => (p.1.all_ips, p.2))
          = (processValidator oracle r).map (fun p => (p.1.all_ips, p.2)) := by
  constructor
  · cases hs : truthy (oracle (normalize r.name)) <;>
      cases ht : truthy (oracle (normalize v)) <;>
      simp [processValidator, mkResult, hc, hv, hs, ht]
  · intro oracle2 h2
    cases hs : truthy (oracle (normalize r.name)) <;>
      simp [processValidator, mkResult, hc, hv, hs, h2, Except.map]

/-- Witness for C10 at a concrete CNAME record and the never-resolving
oracle. -/
theorem validator_cname_source_decides_witness :
    valCnameRecord.rtype = "CNAME" ∧ valCnameRecord.values = "tgt.example.com" :: []
    ∧ processValidator oracleNone valCnameRecord
        = Except.ok
            (⟨"src.example.com", "tgt.example.com", "❌ Source does not resolve",
              "No DNS resolution"⟩, false) :=
  ⟨rfl, rfl,
    ((validator_cname_source_decides oracleNone valCnameRecord "tgt.example.com" []
      rfl rfl).1).trans rfl⟩

/-! ### Claim C9: empty answers behave exactly like failures -/

theorem mkResult_congr (s f st : String) (ips1 ips2 : Option (List String))
    (ht : truthy ips1 = truthy ips2) (he : truthy ips1 = true → ips1 = ips2) :
    mkResult s f st ips1 = mkResult s f st ips2 := by
  by_cases h : truthy ips1 = true
  · rw [he h]
  · have h1 : truthy ips1 = false := by simpa using h
    have h2 : truthy ips2 = false := by rw [← ht]; exact h1
    simp [mkResult, h1, h2]

/-- Chain outcomes under equivalent oracles: same termination behaviour,
same final name and status, equally truthy (and then equal) answer lists. -/
theorem chainLoopFuel_oracleEquiv (records : List Record) (o1 o2 : Oracle)
    (h : oracleEquiv o1 o2) :
    ∀ fuel tested current,
      (chainLoopFuel records o1 fuel tested current = none
        ∧ chainLoopFuel records o2 fuel tested current = none)
      ∨ (∃ e, chainLoopFuel records o1 fuel tested current = some (Except.error e)
          ∧ chainLoopFuel records o2 fuel tested current = some (Except.error e))
      ∨ (∃ nm st ips1 ips2,
          chainLoopFuel records o1 fuel tested current = some (Except.ok (nm, st, ips1))
          ∧ chainLoopFuel records o2 fuel tested current = some (Except.ok (nm, st, ips2))
          ∧ truthy ips1 = truthy ips2 ∧ (truthy ips1 = true → ips1 = ips2)) := by
  intro fuel
  induction fuel with
  | zero => intro tested current; exact Or.inl ⟨rfl, rfl⟩
  | succ f ih =>
    intro tested current
    rw [chainLoopFuel, chainLoopFuel]
    by_cases hmem : current ∈ tested
    · rw [if_pos hmem, if_pos hmem]
      exact Or.inr (Or.inr ⟨current, "CNAME loop detected", none, none, rfl, rfl, rfl,
        fun hx => rfl⟩)
    · rw [if_neg hmem, if_neg hmem]
      cases hf : findRecord records current with
      | none =>
        dsimp only
        refine Or.inr (Or.inr ⟨current, _, o1 current, o2 current, rfl, ?_, (h current).1,
          (h current).2⟩)
        rw [(h current).1]
      | some r =>
        dsimp only
        by_cases ha : r.rtype = "A"
        · rw [if_pos ha, if_pos ha]
          refine Or.inr (Or.inr ⟨current, _, o1 current, o2 current, rfl, ?_, (h current).1,
            (h current).2⟩)
          rw [(h current).1]
        · rw [if_neg ha, if_neg ha]
          by_cases hc : r.rtype = "CNAME"
          · rw [if_pos hc, if_pos hc]
            cases hfv : firstValue r with
            | error e => exact Or.inr (Or.inl ⟨e, rfl, rfl⟩)
            | ok v => exact ih (current :: tested) (normalize v)
          · rw [if_neg hc, if_neg hc]
            exact Or.inr (Or.inr ⟨current, _, none, none, rfl, rfl, rfl, fun hx => rfl⟩)

/-- `resolve_cname_chain` under equivalent oracles: same error, or same
final name and status with equally truthy answers. -/
theorem resolve_cname_chain_oracleEquiv (records : List Record) (o1 o2 : Oracle)
    (h : oracleEquiv o1 o2) (d : String) :
    (∃ e, resolve_cname_chain records d o1 = Except.error e
        ∧ resolve_cname_chain records d o2 = Except.error e)
    ∨ (∃ nm st ips1 ips2,
        resolve_cname_chain records d o1 = Except.ok (nm, st, ips1)
        ∧ resolve_cname_chain records d o2 = Except.ok (nm, st, ips2)
        ∧ truthy ips1 = truthy ips2 ∧ (truthy ips1 = true → ips1 = ips2)) := by
  have h1 := chainLoopFuel_eq_resolve records o1 d
  have h2 := chainLoopFuel_eq_resolve records o2 d
  rcases chainLoopFuel_oracleEquiv records o1 o2 h ((indexNames records).length + 1)
      [] (normalize d) with ⟨hn, _⟩ | ⟨e, he1, he2⟩ | ⟨nm, st, ips1, ips2, ho1, ho2, ht, he⟩
  · rw [h1] at hn; exact absurd hn (by simp)
  · rw [h1] at he1; rw [h2] at he2
    exact Or.inl ⟨e, (Option.some.injEq _ _).mp he1, (Option.some.injEq _ _).mp he2⟩
  · rw [h1] at ho1; rw [h2] at ho2
    exact Or.inr ⟨nm, st, ips1, ips2, (Option.some.injEq _ _).mp ho1,
      (Option.some.injEq _ _).mp ho2, ht, he⟩

/-- The whole check run is oblivious to the difference between a failure and
an empty answer. -/
theorem checkLoop_oracleEquiv (index : List Record) (pats : List IgnorePat)
    (limit : Option Nat) (o1 o2 : Oracle) (h : oracleEquiv o1 o2) :
    ∀ rs count, checkLoop index pats limit o1 count rs = checkLoop index pats limit o2 count rs := by
  intro rs
  induction rs with
  | nil => intro count; rfl
  | cons r rs ih =>
    intro count
    rw [checkLoop, checkLoop]
    by_cases hlim : limitHit limit count = true
    · rw [if_pos hlim, if_pos hlim]
    · rw [if_neg hlim, if_neg hlim]
      by_cases hcn : r.rtype = "CNAME"
      · rw [if_pos hcn, if_pos hcn]
        cases hbv : r.values with
        | nil => rfl
        | cons v rest =>
          dsimp only
          by_cases hig : ignoredCheck pats (normalize r.name) (some (normalize v)) = true
          · rw [if_pos hig, if_pos hig]
            exact ih count
          · rw [if_neg hig, if_neg hig]
            rcases resolve_cname_chain_oracleEquiv index o1 o2 h (normalize v) with
              ⟨e, he1, he2⟩ | ⟨nm, st, ips1, ips2, ho1, ho2, ht, he⟩
            · rw [he1, he2]
            · rw [ho1, ho2]
              dsimp only
              rw [mkResult_congr (normalize r.name) nm st ips1 ips2 ht he, ht, ih (count + 1)]
      · rw [if_neg hcn, if_neg hcn]
        by_cases hig : ignoredCheck pats (normalize r.name) none = true
        · rw [if_pos hig, if_pos hig]
          exact ih count
        · rw [if_neg hig, if_neg hig]
          by_cases ha : r.rtype = "A"
          · rw [if_pos ha, if_pos ha]
            dsimp only
            rw [mkResult_congr (normalize r.name) (normalize r.name) _ (o1 (normalize r.name))
                (o2 (normalize r.name)) (h (normalize r.name)).1 (h (normalize r.name)).2,
              (h (normalize r.name)).1, ih (count + 1)]
          · rw [if_neg ha, if_neg ha]
            exact ih count

/-- C9: the engine branches only on the truthiness of the oracle's answer:
oracles that agree up to exchanging `none` (failure) with `some []` (empty
answer set) produce the very same run output in `route53_check.py` — same
statuses, same resolved/unresolved partition, same exported `all_ips`
fields (the sentinel when untruthy) — and `resolve_cname_chain` reports the
same final name and status; an empty answer set is never distinguished from
a resolution failure. -/
theorem empty_answer_is_not_resolved (o1 o2 : Oracle) (h : oracleEquiv o1 o2) :
    (∀ records pats limit, runCheckMain records pats limit o1
        = runCheckMain records pats limit o2)
    ∧ (∀ records d,
        (resolve_cname_chain records d o1).map (fun t => (t.1, t.2.1))
          = (resolve_cname_chain records d o2).map (fun t => (t.1, t.2.1)))
    ∧ (∀ s f st (ips : Option (List String)), truthy ips = false →
        (mkResult s f st ips).all_ips = "No DNS resolution") := by
  refine ⟨fun records pats limit => checkLoop_oracleEquiv records pats limit o1 o2 h records 0,
    fun records d => ?_, fun s f st ips hips => by simp [mkResult, hips]⟩
  rcases resolve_cname_chain_oracleEquiv records o1 o2 h d with
    ⟨e, he1, he2⟩ | ⟨nm, st, ips1, ips2, ho1, ho2, _, _⟩
  · rw [he1, he2]
  · rw [ho1, ho2]; rfl

/-- Witness for C9: the all-empty-answers oracle and the all-failures
oracle give identical check runs on scenario 1's records. -/
theorem empty_answer_is_not_resolved_witness :
    runCheckMain scenario1Records [] none oracleEmpty
      = runCheckMain scenario1Records [] none oracleNone :=
  (empty_answer_is_not_resolved oracleEmpty oracleNone
    (fun _ => ⟨rfl, fun hx => Bool.noConfusion hx⟩)).1 scenario1Records [] none

/-! ### Claim C6: limit enforcement in the check loop -/

/-- With well-formed records the chain loop never raises. -/
theorem chainLoopFuel_no_error (records : List Record) (oracle : Oracle)
    (hwf : wfRecords records) :
    ∀ fuel tested current e,
      chainLoopFuel records oracle fuel tested current ≠ some (Except.error e) := by
  intro fuel
  induction fuel with
  | zero => intro tested current e h; exact Option.noConfusion h
  | succ f ih =>
    intro tested current e h
    rw [chainLoopFuel] at h
    by_cases hmem : current ∈ tested
    · rw [if_pos hmem] at h
      exact Except.noConfusion ((Option.some.injEq _ _).mp h)
    · rw [if_neg hmem] at h
      cases hf : findRecord records current with
      | none =>
        rw [hf] at h
        exact Except.noConfusion ((Option.some.injEq _ _).mp h)
      | some r =>
        rw [hf] at h
        dsimp only at h
        by_cases ha : r.rtype = "A"
        · rw [if_pos ha] at h
          exact Except.noConfusion ((Option.some.injEq _ _).mp h)
        · rw [if_neg ha] at h
          by_cases hc : r.rtype = "CNAME"
          · rw [if_pos hc] at h
            have hmemr : r ∈ records := by
              unfold findRecord at hf
              exact List.mem_of_find?_eq_some hf
            have hvne : r.values ≠ [] := hwf r hmemr hc
            cases hbv : r.values with
            | nil => exact absurd hbv hvne
            | cons v rest =>
              have hfv : firstValue r = Except.ok v := by
                unfold firstValue; rw [hbv]
              rw [hfv] at h
              exact ih (current :: tested) (normalize v) e h
          · rw [if_neg hc] at h
            exact Except.noConfusion ((Option.some.injEq _ _).mp h)

/-- With well-formed records `resolve_cname_chain` always returns a normal
outcome. -/
theorem resolve_cname_chain_ok (records : List Record) (oracle : Oracle)
    (d : String) (hwf : wfRecords records) :
    ∃ v, resolve_cname_chain records d oracle = Except.ok v := by
  have heq := chainLoopFuel_eq_resolve records oracle d
  cases hr : resolve_cname_chain records d oracle with
  | error e =>
    rw [hr] at heq
    exact absurd heq (chainLoopFuel_no_error records oracle hwf _ [] (normalize d) e)
  | ok v => exact ⟨v, rfl⟩

/-- `pushResult` on a normal output prepends the result to `all`. -/
theorem pushResult_ok (res : RRResult) (flag : Bool) (out : RunOutput) :
    ∃ out2, pushResult res flag (Except.ok out) = Except.ok out2 ∧ out2.all = res :: out.all :=
  ⟨_, rfl, rfl⟩

/-- The check loop, started at `count` processed records, classifies the
first `N - count` eligible records in order. -/
theorem checkLoop_take_filter (records : List Record) (pats : List IgnorePat)
    (oracle : Oracle) (N : Nat) (hwf : wfRecords records) :
    ∀ rs count, (∀ r ∈ rs, r.rtype = "CNAME" → r.values ≠ []) →
      ∃ out, checkLoop records pats (some N) oracle count rs = Except.ok out
        ∧ out.all.map (fun res => res.source)
            = ((rs.filter (eligibleCheck pats)).take (N - count)).map (fun r => normalize r.name)
        ∧ out.all.length = min (N - count) (rs.filter (eligibleCheck pats)).length := by
  intro rs
  induction rs with
  | nil =>
    intro count _
    exact ⟨⟨[], [], []⟩, rfl, by simp, by simp⟩
  | cons r rs ih =>
    intro count hwfl
    have hwfr : r.rtype = "CNAME" → r.values ≠ [] := hwfl r (List.mem_cons_self r rs)
    have hwfrest : ∀ x ∈ rs, x.rtype = "CNAME" → x.values ≠ [] :=
      fun x hx => hwfl x (List.mem_cons_of_mem r hx)
    rw [checkLoop]
    by_cases hlim : limitHit (some N) count = true
    · rw [if_pos hlim]
      have hz : N - count = 0 := Nat.sub_eq_zero_of_le (by simpa [limitHit] using hlim)
      exact ⟨⟨[], [], []⟩, rfl, by simp [hz], by simp [hz]⟩
    · rw [if_neg hlim]
      have hcountlt : count < N := by
        by_contra hcl
        exact hlim (by simp [limitHit]; exact Nat.le_of_not_lt hcl)
      have hsub : N - count = (N - (count + 1)) + 1 := by omega
      by_cases hcn : r.rtype = "CNAME"
      · rw [if_pos hcn]
        cases hbv : r.values with
        | nil => exact absurd hbv (hwfr hcn)
        | cons v rest =>
          dsimp only
          have htgt : recordTarget r = some (normalize v) := by
            unfold recordTarget; rw [if_pos hcn, hbv]; rfl
          by_cases hig : ignoredCheck pats (normalize r.name) (some (normalize v)) = true
          · rw [if_pos hig]
            have helig : eligibleCheck pats r = false := by
              unfold eligibleCheck
              rw [htgt, hig]
              rfl
            obtain ⟨out, hout, hmap, hlen⟩ := ih count hwfrest
            exact ⟨out, hout, by rw [List.filter_cons_of_neg (by simp [helig])]; exact hmap,
              by rw [List.filter_cons_of_neg (by simp [helig])]; exact hlen⟩
          · rw [if_neg hig]
            obtain ⟨⟨nm, st, ips⟩, hres⟩ :=
              resolve_cname_chain_ok records oracle (normalize v) hwf
            rw [hres]
            dsimp only
            obtain ⟨out, hout, hmap, hlen⟩ := ih (count + 1) hwfrest
            rw [hout]
            have helig : eligibleCheck pats r = true := by
              unfold eligibleCheck
              rw [htgt]
              simp [hig, hcn]
            refine ⟨⟨mkResult (normalize r.name) nm st ips :: out.all,
              if truthy ips then mkResult (normalize r.name) nm st ips :: out.resolved
                else out.resolved,
              if truthy ips then out.unresolved
                else mkResult (normalize r.name) nm st ips :: out.unresolved⟩,
              ?_, ?_, ?_⟩
            · unfold pushResult
              cases hti : truthy ips <;> simp [hti]
            · rw [List.filter_cons_of_pos helig, hsub]
              rw [List.take_succ_cons, List.map_cons, List.map_cons]
              exact congrArg₂ (· :: ·) rfl hmap
            · rw [List.filter_cons_of_pos helig, hsub]
              simp only [List.length_cons, List.length_map]
              rw [Nat.succ_min_succ]
              simpa using hlen
      · rw [if_neg hcn]
        have htgt : recordTarget r = none := by
          unfold recordTarget; rw [if_neg hcn]
        by_cases hig : ignoredCheck pats (normalize r.name) none = true
        · rw [if_pos hig]
          have helig : eligibleCheck pats r = false := by
            unfold eligibleCheck
            rw [htgt, hig]
            rfl
          obtain ⟨out, hout, hmap, hlen⟩ := ih count hwfrest
          exact ⟨out, hout, by rw [List.filter_cons_of_neg (by simp [helig])]; exact hmap,
            by rw [List.filter_cons_of_neg (by simp [helig])]; exact hlen⟩
        · rw [if_neg hig]
          by_cases ha : r.rtype = "A"
          · rw [if_pos ha]
            dsimp only
            obtain ⟨out, hout, hmap, hlen⟩ := ih (count + 1) hwfrest
            rw [hout]
            have helig : eligibleCheck pats r = true := by
              unfold eligibleCheck
              rw [htgt]
              simp [hig, ha]
            obtain ⟨out2, hpush, hall⟩ := pushResult_ok
              (mkResult (normalize r.name) (normalize r.name)
                (if truthy (oracle (normalize r.name)) then "Externally resolvable A record"
                 else "A record does not resolve externally") (oracle (normalize r.name)))
              (truthy (oracle (normalize r.name))) out
            refine ⟨out2, hpush, ?_, ?_⟩
            · rw [hall, List.filter_cons_of_pos helig, hsub]
              rw [List.take_succ_cons, List.map_cons, List.map_cons]
              exact congrArg₂ (· :: ·) rfl hmap
            · rw [hall, List.filter_cons_of_pos helig, hsub]
              simp only [List.length_cons, List.length_map]
              rw [Nat.succ_min_succ]
              simpa using hlen
          · rw [if_neg ha]
            have helig : eligibleCheck pats r = false := by
              unfold eligibleCheck
              simp [hcn, ha]
            obtain ⟨out, hout, hmap, hlen⟩ := ih count hwfrest
            exact ⟨out, hout, by rw [List.filter_cons_of_neg (by simp [helig])]; exact hmap,
              by rw [List.filter_cons_of_neg (by simp [helig])]; exact hlen⟩

/-- C6 (amended): for every record list in which each CNAME record carries
at least one value, and every limit `N`, the run classifies exactly
`min(N, eligible_count)` records — the first eligible (non-ignored, type A
or CNAME) records in input order — where the stop condition is checked
before each classification. -/
theorem limit_enforcement (records : List Record) (pats : List IgnorePat)
    (N : Nat) (oracle : Oracle) (hwf : wfRecords records) :
    ∃ out, runCheckMain records pats (some N) oracle = Except.ok out
      ∧ out.all.map (fun res => res.source)
          = ((records.filter (eligibleCheck pats)).take N).map (fun r => normalize r.name)
      ∧ out.all.length = min N (records.filter (eligibleCheck pats)).length := by
  have h := checkLoop_take_filter records pats oracle N hwf records 0
    (fun r hr => hwf r hr)
  simpa using h

/-- C6 counterexample: with a malformed CNAME among the eligible records the
run does not classify `min(N, eligible_count)` records — it aborts with an
IndexError after one record even though three are eligible under limit 3. -/
theorem limit_enforcement_cex :
    runCheckMain mixedBadRecords [] (some 3) oracleNone = Except.error indexErrMsg
    ∧ (mixedBadRecords.filter (eligibleCheck [])).length = 3 :=
  ⟨rfl, rfl⟩

/-- Witness for C6 on two well-formed A records with limit 1. -/
theorem limit_enforcement_witness :
    wfRecords [plainARecord, dupARecord]
    ∧ ∃ out, runCheckMain [plainARecord, dupARecord] [] (some 1) oracleNone = Except.ok out
        ∧ out.all.map (fun res => res.source)
            = ((([plainARecord, dupARecord]).filter (eligibleCheck [])).take 1).map
                (fun r => normalize r.name)
        ∧ out.all.length = min 1 (([plainARecord, dupARecord]).filter (eligibleCheck [])).length :=
  ⟨by decide, limit_enforcement [plainARecord, dupARecord] [] 1 oracleNone (by decide)⟩

/-! ### Claim C7: ignored records are invisible to the check loop -/

/-- Once the limit is hit the check loop stops regardless of the rest. -/
theorem checkLoop_limit_stop (index : List Record) (pats : List IgnorePat)
    (limit : Option Nat) (oracle : Oracle) (count : Nat) (rs : List Record)
    (h : limitHit limit count = true) :
    checkLoop index pats limit oracle count rs = Except.ok ⟨[], [], []⟩ := by
  cases rs with
  | nil => rfl
  | cons r rs => rw [checkLoop, if_pos h]

/-- The check loop only looks at the tail through its recursive calls. -/
theorem checkLoop_tail_congr (index : List Record) (pats : List IgnorePat)
    (limit : Option Nat) (oracle : Oracle) (b : Record) (rs1 rs2 : List Record)
    (h : ∀ count, checkLoop index pats limit oracle count rs1
        = checkLoop index pats limit oracle count rs2) :
    ∀ count, checkLoop index pats limit oracle count (b :: rs1)
      = checkLoop index pats limit oracle count (b :: rs2) := by
  intro count
  rw [checkLoop, checkLoop]
  by_cases hlim : limitHit limit count = true
  · rw [if_pos hlim, if_pos hlim]
  · rw [if_neg hlim, if_neg hlim]
    by_cases hcn : b.rtype = "CNAME"
    · rw [if_pos hcn, if_pos hcn]
      cases hbv : b.values with
      | nil => rfl
      | cons v rest =>
        dsimp only
        by_cases hig : ignoredCheck pats (normalize b.name) (some (normalize v)) = true
        · rw [if_pos hig, if_pos hig]
          exact h count
        · rw [if_neg hig, if_neg hig]
          cases resolve_cname_chain index (normalize v) oracle with
          | error e => rfl
          | ok t =>
            obtain ⟨nm, st, ips⟩ := t
            dsimp only
            rw [h (count + 1)]
    · rw [if_neg hcn, if_neg hcn]
      by_cases hig : ignoredCheck pats (normalize b.name) none = true
      · rw [if_pos hig, if_pos hig]
        exact h count
      · rw [if_neg hig, if_neg hig]
        by_cases ha : b.rtype = "A"
        · rw [if_pos ha, if_pos ha]
          dsimp only
          rw [h (count + 1)]
        · rw [if_neg ha, if_neg ha]
          exact h count

/-- C7 (amended): a well-formed record whose normalized source name — or,
for a CNAME, whose *non-empty* normalized target name — matches some ignore
pattern (the code's skip condition `ignoredCheck`) is never classified and
never counted toward the limit: deleting it from the iteration list leaves
the whole run output unchanged.  (A CNAME whose target normalizes to the
empty string is, by Python truthiness, ignored only via its source.) -/
theorem ignored_record_never_classified (pats : List IgnorePat) (r : Record)
    (hwfr : r.rtype = "CNAME" → r.values ≠ [])
    (hig : ignoredCheck pats (normalize r.name) (recordTarget r) = true)
    (index : List Record) (limit : Option Nat) (oracle : Oracle) :
    ∀ count before after,
      checkLoop index pats limit oracle count (before ++ r :: after)
        = checkLoop index pats limit oracle count (before ++ after) := by
  intro count before after
  induction before generalizing count with
  | nil =>
    simp only [List.nil_append]
    by_cases hlim : limitHit limit count = true
    · rw [checkLoop_limit_stop index pats limit oracle count _ hlim,
        checkLoop_limit_stop index pats limit oracle count _ hlim]
    · rw [checkLoop]
      rw [if_neg hlim]
      by_cases hcn : r.rtype = "CNAME"
      · rw [if_pos hcn]
        cases hbv : r.values with
        | nil => exact absurd hbv (hwfr hcn)
        | cons v rest =>
          dsimp only
          have htgt : recordTarget r = some (normalize v) := by
            unfold recordTarget; rw [if_pos hcn, hbv]; rfl
          rw [htgt] at hig
          rw [if_pos hig]
      · rw [if_neg hcn]
        have htgt : recordTarget r = none := by
          unfold recordTarget; rw [if_neg hcn]
        rw [htgt] at hig
        rw [if_pos hig]
  | cons b before ih =>
    simp only [List.cons_append]
    exact checkLoop_tail_congr index pats limit oracle b _ _ ih count

/-- C7 counterexample: a CNAME whose target `"."` normalizes to the empty
string slips past the ignore filter even though the pattern matches the
target — Python's `target and pat.search(target)` is falsy on the empty
string — so the record *is* classified. -/
theorem ignored_record_never_classified_cex :
    emptyOnlyPat (normalize ".") = true
    ∧ runCheckMain [dotCnameRecord] [emptyOnlyPat] none oracleNone
        = Except.ok
            ⟨[⟨"a.example.com", "", "Does not have an IP match", "No DNS resolution"⟩], [],
              [⟨"a.example.com", "", "Does not have an IP match", "No DNS resolution"⟩]⟩ :=
  ⟨rfl, rfl⟩

/-- Witness for C7: deleting an ignored A record from the iteration list
leaves the run unchanged. -/
theorem ignored_record_never_classified_witness :
    (testARecord.rtype = "CNAME" → testARecord.values ≠ [])
    ∧ ignoredCheck [testNamePat] (normalize testARecord.name) (recordTarget testARecord) = true
    ∧ checkLoop [testARecord, plainARecord] [testNamePat] (some 5) oracleNone 0
          ([] ++ testARecord :: [plainARecord])
        = checkLoop [testARecord, plainARecord] [testNamePat] (some 5) oracleNone 0
            ([] ++ [plainARecord]) :=
  ⟨by decide, by decide,
    ignored_record_never_classified [testNamePat] testARecord (by decide) (by decide)
      [testARecord, plainARecord] (some 5) oracleNone 0 [] [plainARecord]⟩

/-! ### Claim C8: strict dedup in the validator loop -/

/-- Once the limit is hit the validator loop stops regardless of the rest. -/
theorem validatorLoop_limit_stop (pats : List IgnorePat) (limit : Option Nat)
    (oracle : Oracle) (count : Nat) (seen : List String) (rs : List Record)
    (h : limitHit limit count = true) :
    validatorLoop pats limit oracle count seen rs = Except.ok ⟨[], [], []⟩ := by
  cases rs with
  | nil => rfl
  | cons r rs => rw [validatorLoop, if_pos h]

/-- Dropping the records that the dedup filter will skip anyway does not
change the validator run: only the first A/CNAME record per distinct
normalized name is ever processed. -/
theorem validatorLoop_dedup (pats : List IgnorePat) (limit : Option Nat) (oracle : Oracle) :
    ∀ (rs : List Record) (count : Nat) (seen : List String),
      validatorLoop pats limit oracle count seen rs
        = validatorLoop pats limit oracle count seen (dedupSeen seen rs) := by
  intro rs
  induction rs with
  | nil => intro count seen; rfl
  | cons r rs ih =>
    intro count seen
    by_cases hlim : limitHit limit count = true
    · rw [validatorLoop_limit_stop pats limit oracle count seen _ hlim,
        validatorLoop_limit_stop pats limit oracle count seen _ hlim]
    · rw [validatorLoop, if_neg hlim]
      by_cases hty : r.rtype = "A" ∨ r.rtype = "CNAME"
      · rw [if_neg (not_not_intro hty)]
        unfold dedupSeen
        rw [if_pos hty]
        by_cases hdup : normalize r.name ∈ seen
        · rw [if_pos hdup, if_pos hdup]
          exact ih count seen
        · rw [if_neg hdup, if_neg hdup]
          rw [validatorLoop, if_neg hlim, if_neg (not_not_intro hty)]
          dsimp only
          rw [if_neg hdup]
          by_cases hig : ignoredCheck pats (normalize r.name) (r.values.head?.map normalize) = true
          · rw [if_pos hig, if_pos hig]
            exact ih count (normalize r.name :: seen)
          · rw [if_neg hig, if_neg hig]
            cases processValidator oracle r with
            | error e => rfl
            | ok p =>
              obtain ⟨res, flag⟩ := p
              dsimp only
              rw [ih (count + 1) (normalize r.name :: seen)]
      · rw [if_pos hty]
        unfold dedupSeen
        rw [if_neg hty]
        rw [validatorLoop, if_neg hlim, if_pos hty]
        exact ih count seen

/-- The per-record body reports the record's normalized name as source. -/
theorem processValidator_source (oracle : Oracle) (r : Record) (res : RRResult)
    (flag : Bool) (h : processValidator oracle r = Except.ok (res, flag)) :
    res.source = normalize r.name := by
  unfold processValidator at h
  by_cases hc : r.rtype = "CNAME"
  · rw [if_pos hc] at h
    cases hbv : r.values with
    | nil => rw [hbv] at h; exact Except.noConfusion h
    | cons v rest =>
      rw [hbv] at h
      dsimp only at h
      have := (Except.ok.injEq _ _).mp h
      rw [← (Prod.mk.injEq _ _ _ _ |>.mp this).1]
      rfl
  · rw [if_neg hc] at h
    have := (Except.ok.injEq _ _).mp h
    rw [← (Prod.mk.injEq _ _ _ _ |>.mp this).1]
    rfl

/-- Sources reported by the validator loop are distinct among themselves
and disjoint from the names already seen. -/
theorem validatorLoop_sources_nodup (pats : List IgnorePat) (limit : Option Nat)
    (oracle : Oracle) :
    ∀ (rs : List Record) (count : Nat) (seen : List String) (out : RunOutput),
      validatorLoop pats limit oracle count seen rs = Except.ok out →
        (out.all.map (fun res => res.source)).Nodup
        ∧ ∀ src ∈ out.all.map (fun res => res.source), src ∉ seen := by
  intro rs
  induction rs with
  | nil =>
    intro count seen out h
    have hout : out = ⟨[], [], []⟩ := ((Except.ok.injEq _ _).mp h).symm
    subst hout
    exact ⟨List.nodup_nil, by simp⟩
  | cons r rs ih =>
    intro count seen out h
    rw [validatorLoop] at h
    by_cases hlim : limitHit limit count = true
    · rw [if_pos hlim] at h
      have hout : out = ⟨[], [], []⟩ := ((Except.ok.injEq _ _).mp h).symm
      subst hout
      exact ⟨List.nodup_nil, by simp⟩
    · rw [if_neg hlim] at h
      by_cases hty : r.rtype = "A" ∨ r.rtype = "CNAME"
      · rw [if_neg (not_not_intro hty)] at h
        dsimp only at h
        by_cases hdup : normalize r.name ∈ seen
        · rw [if_pos hdup] at h
          exact ih count seen out h
        · rw [if_neg hdup] at h
          by_cases hig : ignoredCheck pats (normalize r.name) (r.values.head?.map normalize) = true
          · rw [if_pos hig] at h
            have hrest := ih count (normalize r.name :: seen) out h
            exact ⟨hrest.1, fun src hsrc hmemseen =>
              hrest.2 src hsrc (List.mem_cons_of_mem _ hmemseen)⟩
          · rw [if_neg hig] at h
            cases hp : processValidator oracle r with
            | error e => rw [hp] at h; exact Except.noConfusion h
            | ok p =>
              obtain ⟨res, flag⟩ := p
              rw [hp] at h
              dsimp only at h
              cases hrec : validatorLoop pats limit oracle (count + 1)
                  (normalize r.name :: seen) rs with
              | error e =>
                rw [hrec] at h
                exact Except.noConfusion h
              | ok out2 =>
                rw [hrec] at h
                unfold pushResult at h
                have hout : out = ⟨res :: out2.all,
                    if flag then res :: out2.resolved else out2.resolved,
                    if flag then out2.unresolved else res :: out2.unresolved⟩ :=
                  ((Except.ok.injEq _ _).mp h).symm
                subst hout
                have hsrc : res.source = normalize r.name :=
                  processValidator_source oracle r res flag hp
                have hrest := ih (count + 1) (normalize r.name :: seen) out2 hrec
                constructor
                · rw [List.map_cons]
                  refine List.nodup_cons.mpr ⟨fun hmem => ?_, hrest.1⟩
                  have := hrest.2 res.source hmem
                  rw [hsrc] at this
                  exact this (List.mem_cons_self _ _)
                · rw [List.map_cons]
                  intro src hsrc2 hmemseen
                  rcases List.mem_cons.mp hsrc2 with heq | hmem
                  · rw [heq, hsrc] at hmemseen
                    exact hdup hmemseen
                  · exact hrest.2 src hmem (List.mem_cons_of_mem _ hmemseen)
      · rw [if_pos hty] at h
        exact ih count seen out h

/-- C8 (amended): the validator's strict dedup processes only the *first*
A-or-CNAME record per distinct normalized name — the first occurrence
claims the name even when it is then ignored (the code adds the source to
`seen_sources` before the ignore filter), in which case no record with
that name is classified — and consequently `all` never holds two results
with the same source. -/
theorem strict_dedup_first_occurrence (pats : List IgnorePat) (limit : Option Nat)
    (oracle : Oracle) :
    (∀ records, runValidatorMain records pats limit oracle
        = validatorLoop pats limit oracle 0 [] (dedupSeen [] records))
    ∧ (∀ records out, runValidatorMain records pats limit oracle = Except.ok out →
        (out.all.map (fun res => res.source)).Nodup) :=
  ⟨fun records => validatorLoop_dedup pats limit oracle records 0 [],
   fun records out h =>
    (validatorLoop_sources_nodup pats limit oracle records 0 [] out h).1⟩

/-- C8 counterexample: when the first record for a name is ignored (by its
CNAME target), the later same-named record is dropped as a duplicate, so
`all` holds no result at all for that name — not one result built from the
first non-ignored occurrence, as the claim reads. -/
theorem strict_dedup_first_occurrence_cex :
    ignoredCheck [dupTargetPat] (normalize dupARecord.name) (recordTarget dupARecord) = false
    ∧ runValidatorMain [dupCnameRecord, dupARecord] [dupTargetPat] none oracleNone
        = Except.ok ⟨[], [], []⟩ :=
  ⟨rfl, rfl⟩

/-- Witness for C8 on spec scenario 6 (two same-named A records). -/
theorem strict_dedup_first_occurrence_witness :
    (runValidatorMain dupPairRecords [] none oracleNone
        = validatorLoop [] none oracleNone 0 [] (dedupSeen [] dupPairRecords))
    ∧ ((RunOutput.mk
          [⟨"dup.example.com", "dup.example.com", "❌ Source does not resolve",
            "No DNS resolution"⟩]
          []
          [⟨"dup.example.com", "dup.example.com", "❌ Source does not resolve",
            "No DNS resolution"⟩]).all.map (fun res => res.source)).Nodup :=
  ⟨(strict_dedup_first_occurrence [] none oracleNone).1 dupPairRecords,
   (strict_dedup_first_occurrence [] none oracleNone).2 dupPairRecords _ rfl⟩

end Route53
